import Mathlib

/-!
Verification development for the OnboardingQR repository.

The repository renders onboarding records into multi-page PDF documents.
We shallowly embed the pagination planner and the per-page rendering
decisions of `src/qr_generator.py`, the name-matching utilities of
`src/utils.py`, and the user-association loop of `src/main.py`.

Modelling conventions:
* A Python `dict` row fetched from the database is a structure whose fields
  have type `Option (Option String)`: the outer `Option` models key presence
  (`none` = the key is absent, so `row[key]` raises `KeyError`), the inner
  `Option` models SQL `NULL` (`some none` = key present with value `None`).
* `dict.get(key, default)` is `Option.getD` on the outer layer.
* Python string truthiness (`if s:`) is `pyTruthy`.
* Python exceptions are modelled with `Except String`.
* Character handling (lowercasing, the alphanumeric class of the regex
  `[^a-zA-Z0-9]`) is modelled on ASCII, which is what the code relies on.
* The vertical page layout arithmetic of the overview page uses exact
  rationals; every comparison performed by the code is far from the float
  rounding error of the Python original, so the comparisons agree.
  A4 height in points is 297 mm * 72 / 25.4 = 106920 / 127.
-/

namespace OnboardingQR

/-- Does `needle` occur at the start of `hay`?  (Helper for substring tests.) -/
def startsWithList : List Char → List Char → Bool
  | _, [] => true
  | [], _ :: _ => false
  | c :: cs, d :: ds => c == d && startsWithList cs ds

/-- Does `hay` contain `needle` as a contiguous substring?
Models the Python expression `needle in hay` on strings. -/
def containsSub : List Char → List Char → Bool
  | [], needle => needle.isEmpty
  | c :: cs, needle => startsWithList (c :: cs) needle || containsSub cs needle

/-- `strContains s sub` models Python `sub in s`. -/
def strContains (s sub : String) : Bool :=
  containsSub s.toList sub.toList

/-- ASCII lowercasing of a string; models Python `str.lower()` on the ASCII
range used by the role tags of this repository. -/
def lowerStr (s : String) : String :=
  String.mk (s.toList.map Char.toLower)

/-- Python string truthiness for a nullable string value
(`None` and the empty string are falsy). -/
def pyTruthy : Option String → Bool
  | none => false
  | some s => !s.toList.isEmpty

/-- `dict.get(key, default)` on a field of a record row. -/
def pyGetD (v : Option (Option String)) (d : Option String) : Option String :=
  v.getD d

/-- `row[key]`: direct indexing, raising `KeyError` when the key is absent. -/
def keyIndex (v : Option (Option String)) (k : String) : Except String (Option String) :=
  match v with
  | none => Except.error ("KeyError: " ++ k)
  | some x => Except.ok x

/-- `value.lower()` on a nullable string: raises `AttributeError` on `None`. -/
def pyLower : Option String → Except String String
  | none => Except.error ("AttributeError: NoneType has no attribute lower")
  | some s => Except.ok (lowerStr s)

/-- The Python `str(...)`/f-string rendering of a nullable string. -/
def pyStr : Option String → String
  | none => "None"
  | some s => s

/-- One onboarding row, as selected by the queries in `src/database.py` and
consumed by `src/qr_generator.py`. -/
structure Rec where
  onboarding_name : Option (Option String)
  qr_code : Option (Option String)
  location_name : Option (Option String)
  sales_name : Option (Option String)
  event_name : Option (Option String)
  rollen : Option (Option String)
  betaalmethodes : Option (Option String)
deriving DecidableEq

/-- One user row (`src/database.py` user queries): only the fields the
generator reads are modelled. -/
structure UserRec where
  email : Option (Option String)
  qr_code : Option (Option String)
deriving DecidableEq

/-- `QRCodeGenerator._has_topup_role` (src/qr_generator.py lines 111-118):
`roles = data.get('rollen', '')`; if `roles` is truthy, test whether its
lowercasing contains `topup`, `top_up` or `top-up`; otherwise `False`. -/
def has_topup_role (r : Rec) : Bool :=
  match pyGetD r.rollen (some "") with
  | none => false
  | some s =>
      if s.toList.isEmpty then false
      else
        strContains (lowerStr s) "topup" || strContains (lowerStr s) "top_up" ||
          strContains (lowerStr s) "top-up"

/-- `QRCodeGenerator._needs_separate_currencies_page`
(src/qr_generator.py lines 372-379): `False` for an empty list, otherwise
`len(onboarding_list) > 15`. -/
def needs_separate_currencies_page (l : List Rec) : Bool :=
  if l.isEmpty then false else decide (15 < l.length)

/-- `QRCodeGenerator._calculate_total_pages` (src/qr_generator.py lines
93-109): 0 for an empty list; otherwise one base page per record, plus one
per record with a top-up role, plus one if a separate currencies page is
needed. -/
def calculate_total_pages (l : List Rec) : Nat :=
  if l.isEmpty then 0
  else
    l.length + l.countP (fun r => has_topup_role r) +
      (if needs_separate_currencies_page l then 1 else 0)

/-- The `total_pages` value printed in every page footer of the application
template: `_calculate_total_pages(onboarding_list) + 1`
(src/qr_generator.py line 65). -/
def totalPages (l : List Rec) : Nat :=
  calculate_total_pages l + 1

/-- The kinds of pages the generator emits.  `detail i` / `manual i` carry
the position of the owning record in the input list. -/
inductive PageKind where
  | overview : PageKind
  | currencies : PageKind
  | detail : Nat → PageKind
  | manual : Nat → PageKind
deriving DecidableEq

/-- The pages produced by the per-record loop of
`generate_multi_page_application_template` (src/qr_generator.py lines
77-88): for each record one detail page, followed by a manual page when the
record has a top-up role.  `n` is the index of the first record. -/
def detailSection : Nat → List Rec → List PageKind
  | _, [] => []
  | n, r :: rs =>
      PageKind.detail n :: ((if has_topup_role r then [PageKind.manual n] else []) ++
        detailSection (n + 1) rs)

/-- The complete page sequence of the application template
(src/qr_generator.py lines 58-91): the overview page, then the separate
currencies page when needed, then the per-record section. -/
def pagePlan (l : List Rec) : List PageKind :=
  PageKind.overview ::
    ((if needs_separate_currencies_page l then [PageKind.currencies] else []) ++
      detailSection 0 l)

/-- The generated document: each page paired with the total page count its
footer displays (the same precomputed `total_pages` on every page). -/
def applicationDocument (l : List Rec) : List (PageKind × Nat) :=
  (pagePlan l).map (fun k => (k, totalPages l))

/-- The role-tag condition exactly as the claim states it: the record has a
role string (present and non-null) whose lowercasing contains `topup`,
`top_up` or `top-up`. -/
def roleTagHasVariant (r : Rec) : Bool :=
  match r.rollen with
  | some (some s) =>
      strContains (lowerStr s) "topup" || strContains (lowerStr s) "top_up" ||
        strContains (lowerStr s) "top-up"
  | _ => false

/-- A4 page height in points: 297 mm at 72 points per inch = 106920/127
(reportlab's `A4` height, src/qr_generator.py line 62). -/
def pageHeight : ℚ := mkRat 106920 127

/-- External context of the overview page: whether the event-details lookup
returned data (shifting the layout down 35 pt, src/qr_generator.py line
1185) and whether an enabled refund window with dates is shown (shifting it
down a further 30 + 10 pt, lines 1241 and 1257).  Both depend on database
lookups that `_draw_configuration_overview_page` wraps in `try`/`except`. -/
structure OverviewCtx where
  hasEventDetails : Bool
  refundShown : Bool
deriving DecidableEq

/-- Overview context with both external lookups unavailable. -/
def ctxPlain : OverviewCtx := ⟨false, false⟩

/-- Overview context with event details and refund window both shown. -/
def ctxFull : OverviewCtx := ⟨true, true⟩

/-- The y coordinate at which the first table row of the overview page is
drawn (src/qr_generator.py lines 1159-1321): `height - 90`, minus the
event-header blocks when the record list is nonempty (30 for the event
name, 35 for event times, 40 for refund info, 40 before the count line),
minus 50 down to the table header and 20 after the header underline. -/
def tableStartY (ctx : OverviewCtx) (l : List Rec) : ℚ :=
  (if l.isEmpty then pageHeight - 90
   else
     pageHeight - 90 - 30 - (if ctx.hasEventDetails then 35 else 0) -
       (if ctx.refundShown then 40 else 0) - 40) - 50 - 20

/-- The record-row loop of `_draw_configuration_overview_page`
(src/qr_generator.py lines 1325-1413): starting at `y`, break as soon as
`y < 80`, otherwise draw one row and move down 18 pt.  Returns the number
of rows drawn (always an initial prefix of the record list) and the final
y coordinate. -/
def rowsLoop : ℚ → Nat → Nat × ℚ
  | y, 0 => (0, y)
  | y, n + 1 =>
      if y < 80 then (0, y)
      else
        let p := rowsLoop (y - 18) n
        (p.1 + 1, p.2)

/-- One currency row (`src/database.py` `get_currencies`); only the sort key
matters for the modelled claims.  `none` models a missing or `NULL`
`burning_weight`, which the sort key treats as 0
(src/qr_generator.py line 1529). -/
structure Currency where
  burning_weight : Option ℚ
deriving DecidableEq

/-- The sort key `float(c.get('burning_weight', 0)) if ... is not None
else 0` of src/qr_generator.py line 1529. -/
def bwKey (c : Currency) : ℚ :=
  c.burning_weight.getD 0

/-- The ascending comparison used by Python `sorted(currencies, key=...)`. -/
def bwLe (a b : Currency) : Bool :=
  decide (bwKey a ≤ bwKey b)

/-- The currency-row loop of `_draw_currencies_section`
(src/qr_generator.py lines 1532-1558): break as soon as `y < 120`,
otherwise draw one row and move down 12 pt. -/
def currencyRowsLoop : ℚ → List Currency → List Currency
  | _, [] => []
  | y, c :: cs => if y < 120 then [] else c :: currencyRowsLoop (y - 12) cs

/-- `QRCodeGenerator._draw_currencies_section` (src/qr_generator.py lines
1457-1569), reduced to the rows it draws: nothing when the currency list is
empty (or the database is unreachable); otherwise the currencies sorted
ascending by burning weight, capped to the first 7, drawn top-down from
`start_y - 25 - 15` until vertical space runs out.  Python's `sorted` is
stable, as is `List.mergeSort`, so the row order is modelled exactly. -/
def draw_currencies_section (startY : ℚ) (cs : List Currency) : List Currency :=
  if cs.isEmpty then []
  else currencyRowsLoop (startY - 25 - 15) ((cs.mergeSort bwLe).take 7)

/-- `QRCodeGenerator._draw_currencies_page` (src/qr_generator.py lines
1571-1604): the dedicated currencies page draws the section starting at
`height - 150`. -/
def draw_currencies_page (cs : List Currency) : List Currency :=
  draw_currencies_section (pageHeight - 150) cs

/-- The observable outcome of `_draw_configuration_overview_page`
(src/qr_generator.py lines 1134-1455) for the modelled claims. -/
structure OverviewOut where
  rowsDrawn : Nat
  afterTableY : ℚ
  moreNote : Option Nat
  currenciesEmbedded : Option (List Currency)

/-- `QRCodeGenerator._draw_configuration_overview_page`: the table rows are
drawn by `rowsLoop` from `tableStartY`; the `"... en nog N configuraties"`
note appears when the list is nonempty and has more than `items_per_page =
25` records, with N = length - 25 (lines 1416-1419); the currency table is
embedded at `y - 40` exactly when no separate currencies page is needed
(lines 1421-1434). -/
def draw_configuration_overview (ctx : OverviewCtx) (l : List Rec)
    (cs : List Currency) : OverviewOut :=
  let p := rowsLoop (tableStartY ctx l) l.length
  { rowsDrawn := p.1,
    afterTableY := p.2,
    moreNote :=
      if !l.isEmpty && decide (25 < l.length) then some (l.length - 25) else none,
    currenciesEmbedded :=
      if needs_separate_currencies_page l then none
      else some (draw_currencies_section (p.2 - 40) cs) }

/-- A typical fully-populated onboarding record, used as a concrete input. -/
def recPlain : Rec :=
  ⟨some (some "Bar 1"), some (some "QR0"), some (some "Main"),
    some (some "Drinks"), some (some "Festival"), some (some "sales"),
    some (some "Cash")⟩

/-- 15 records: the largest list whose currency table stays on the
overview page. -/
def recs15 : List Rec := List.replicate 15 recPlain

/-- 16 records: the smallest list that triggers the separate currencies
page. -/
def recs16 : List Rec := List.replicate 16 recPlain

/-- 26 records: one more than the overview table's nominal 25-item cap. -/
def recs26 : List Rec := List.replicate 26 recPlain

/-- Eight currencies with ascending burning weights 1..8. -/
def cs8 : List Currency :=
  [⟨some 1⟩, ⟨some 2⟩, ⟨some 3⟩, ⟨some 4⟩, ⟨some 5⟩, ⟨some 6⟩, ⟨some 7⟩,
    ⟨some 8⟩]

/-- `QRCodeGenerator.generate_qr_url` (src/qr_generator.py lines 36-38). -/
def generate_qr_url (domain qr_code : String) : String :=
  "https://" ++ domain ++ "/?onboardingQrCode=" ++ qr_code ++ "#/auth/signuphome"

/-- The record-field accesses `_draw_application_page` performs, in source
order (src/qr_generator.py lines 120-196): direct indexing of `qr_code`
(line 122), `onboarding_name` (136), `event_name` (175), `location_name`
(179), `sales_name` (183) — each raising `KeyError` when the key is absent
— then `.get('rollen', '').lower()` (line 193), raising `AttributeError`
when `rollen` is present but null.  The page draws successfully exactly
when none of these raises; nothing in the drawing loop catches them. -/
def draw_application_page (r : Rec) : Except String Unit :=
  match r.qr_code with
  | none => Except.error ("KeyError: qr_code")
  | some _ =>
    match r.onboarding_name with
    | none => Except.error ("KeyError: onboarding_name")
    | some _ =>
      match r.event_name with
      | none => Except.error ("KeyError: event_name")
      | some _ =>
        match r.location_name with
        | none => Except.error ("KeyError: location_name")
        | some _ =>
          match r.sales_name with
          | none => Except.error ("KeyError: sales_name")
          | some _ =>
            match pyGetD r.rollen (some "") with
            | none => Except.error ("AttributeError: NoneType has no attribute lower")
            | some _ => Except.ok ()

/-- The per-record loop of the application template (src/qr_generator.py
lines 77-88) with error propagation: no `try` guards the loop body, so the
first record whose detail page raises aborts the rest of the loop.  For a
record that draws successfully and has a top-up role, the manual page
follows (its name access cannot raise, having succeeded on the detail
page, and its image handling is caught in-page). -/
def drawLoop : Nat → List Rec → Except String (List PageKind)
  | _, [] => Except.ok []
  | i, r :: rs =>
      match draw_application_page r with
      | Except.error e => Except.error e
      | Except.ok _ =>
          match drawLoop (i + 1) rs with
          | Except.error e => Except.error e
          | Except.ok rest =>
              Except.ok (PageKind.detail i ::
                ((if has_topup_role r then [PageKind.manual i] else []) ++ rest))

/-- `generate_multi_page_application_template` with error propagation
(src/qr_generator.py lines 58-91): the overview page (and a currencies
page) read record fields only via `.get` and cannot raise on them; an
exception in the per-record loop propagates and `c.save()` is never
reached, so no document is produced. -/
def generate_multi_page_application_template (l : List Rec) :
    Except String (List PageKind) :=
  match drawLoop 0 l with
  | Except.error e => Except.error e
  | Except.ok rest =>
      Except.ok (PageKind.overview ::
        ((if needs_separate_currencies_page l then [PageKind.currencies] else []) ++
          rest))

/-- The loading state of the external `TOPUPMANUAL.png` asset consumed by
the manual page. -/
inductive ManualImageState where
  | loads : ManualImageState
  | missing : ManualImageState
  | raises : ManualImageState
deriving DecidableEq

/-- What the body of `_draw_topup_manual_page` puts on the page. -/
inductive ManualPageResult where
  | imageDrawn : ManualPageResult
  | fallbackNotice : ManualPageResult
  | errorNotice : ManualPageResult
deriving DecidableEq

/-- `QRCodeGenerator._draw_topup_manual_page` (src/qr_generator.py lines
702-852): the title accesses `onboarding_name` by direct indexing (line
716, outside any `try`), then the whole image block is wrapped in
`try`/`except`: a missing file renders a visible fallback block (lines
789-818), an exception while loading or drawing renders an in-page error
block (lines 820-839); neither aborts the page. -/
def draw_topup_manual_page (r : Rec) (img : ManualImageState) :
    Except String ManualPageResult :=
  match r.onboarding_name with
  | none => Except.error ("KeyError: onboarding_name")
  | some _ =>
      Except.ok
        (match img with
          | ManualImageState.loads => ManualPageResult.imageDrawn
          | ManualImageState.missing => ManualPageResult.fallbackNotice
          | ManualImageState.raises => ManualPageResult.errorNotice)

/-- The payment-methods decision of the detail pages (src/qr_generator.py
lines 192-196, and identically 540-550 in the guest variant): the line is
rendered iff `betaalmethodes` is truthy and the lowercased `rollen` string
does not contain `top_up` — only the underscore variant is checked here,
unlike `_has_topup_role`. -/
def payment_methods_rendered (r : Rec) : Except String Bool :=
  match pyGetD r.rollen (some "") with
  | none => Except.error ("AttributeError: NoneType has no attribute lower")
  | some s =>
      Except.ok (pyTruthy (pyGetD r.betaalmethodes none) &&
        !(strContains (lowerStr s) "top_up"))

/-- What a QR code on a page encodes. -/
inductive QrContent where
  | url : String → QrContent
  | raw : String → QrContent
  | placeholder : QrContent
deriving DecidableEq

/-- The onboarding QR drawn on a detail page (src/qr_generator.py line 122,
guest variant line 383): the constructed URL from the record's `qr_code`
(a null value is rendered as the string `None` by the f-string). -/
def detail_page_onboarding_qr (domain : String) (r : Rec) : Except String QrContent :=
  match r.qr_code with
  | none => Except.error ("KeyError: qr_code")
  | some v => Except.ok (QrContent.url (generate_qr_url domain (pyStr v)))

/-- The second (user) QR of a guest detail page (src/qr_generator.py lines
387-395 and 455-483): the matched user's own QR token as a raw value when
a match with a truthy `qr_code` exists; otherwise the placeholder block
`Geen USER QR beschikbaar`. -/
def guest_page_user_qr (user : Option UserRec) : QrContent :=
  match user with
  | none => QrContent.placeholder
  | some u =>
      match pyGetD u.qr_code none with
      | none => QrContent.placeholder
      | some s =>
          if s.toList.isEmpty then QrContent.placeholder else QrContent.raw s

/-- The roles line of the detail page (src/qr_generator.py line 188):
`data.get('rollen') or "Geen rollen gespecifieerd"`. -/
def application_page_roles_text (r : Rec) : String :=
  match pyGetD r.rollen none with
  | none => "Geen rollen gespecifieerd"
  | some s => if s.toList.isEmpty then "Geen rollen gespecifieerd" else s

/-- Python slicing `s[:k]`. -/
def pyTake (k : Nat) (s : String) : String :=
  String.mk (s.toList.take k)

/-- Python `str.strip()`: whitespace removed from both ends. -/
def pyStrip (s : String) : String :=
  String.mk
    (((s.toList.dropWhile Char.isWhitespace).reverse.dropWhile
      Char.isWhitespace).reverse)

/-- The cells of one overview-table row. -/
structure RowCells where
  name : String
  roles : String
  payment : String
  location : String
  statusTopup : Bool
deriving DecidableEq

/-- One table row of the overview page, application variant
(src/qr_generator.py lines 1329-1411): every field is read with `.get` and
substituted with a placeholder (`Unknown` / `Geen`) when missing, empty or
null, then truncated; a row never raises however incomplete the record. -/
def overview_row_app (r : Rec) : RowCells :=
  let name0 :=
    match pyGetD r.onboarding_name (some "Unknown") with
    | none => "Unknown"
    | some s => if s.toList.isEmpty then "Unknown" else s
  let name := if 12 < name0.toList.length then pyTake 9 name0 ++ "..." else name0
  let roles0 :=
    match pyGetD r.rollen (some "Geen") with
    | none => "Geen"
    | some s => if s.toList.isEmpty then "Geen" else s
  let roles := if 15 < roles0.toList.length then pyTake 12 roles0 ++ "..." else roles0
  let pay0 :=
    match pyGetD r.betaalmethodes (some "") with
    | none => ""
    | some s => s
  let pay1 :=
    if pay0.toList.isEmpty || (pyStrip pay0).toList.isEmpty then "Geen" else pay0
  let pay := if 12 < pay1.toList.length then pyTake 9 pay1 ++ "..." else pay1
  let loc0 :=
    match pyGetD r.location_name (some "Geen") with
    | none => "Geen"
    | some s => if s.toList.isEmpty then "Geen" else s
  let loc := if 10 < loc0.toList.length then pyTake 7 loc0 ++ "..." else loc0
  { name := name, roles := roles, payment := pay, location := loc,
    statusTopup := has_topup_role r }

/-- `split(' | ')` on the character list of an onboarding name:
non-overlapping occurrences of the three-character separator, scanned left
to right (Python `str.split` semantics). -/
def splitBar : List Char → List (List Char)
  | [] => [[]]
  | ' ' :: '|' :: ' ' :: rest => [] :: splitBar rest
  | c :: rest =>
      match splitBar rest with
      | [] => [[c]]
      | seg :: segs => (c :: seg) :: segs

/-- `utils.parse_onboarding_name` (src/utils.py lines 24-38): split on
`' | '`; with at least two parts, the stripped first and SECOND parts;
otherwise the stripped whole name with an empty last name. -/
def parse_onboarding_name (s : String) : String × String :=
  match splitBar s.toList with
  | a :: b :: _ => (pyStrip (String.mk a), pyStrip (String.mk b))
  | _ => (pyStrip s, "")

/-- `utils.clean_email_text` (src/utils.py lines 11-21):
`re.sub(r'[^a-zA-Z0-9]', '', text).lower()` — keep ASCII alphanumerics,
then lowercase. -/
def clean_email_text (s : String) : String :=
  String.mk ((s.toList.filter (fun c => c.isAlphanum)).map Char.toLower)

/-- `utils.generate_expected_email` (src/utils.py lines 41-55). -/
def generate_expected_email (firstname lastname domain : String) : String :=
  clean_email_text firstname ++ clean_email_text lastname ++ "@" ++ domain

/-- `email.split('@')[0]`: the text before the first at sign. -/
def email_local_part (email : String) : String :=
  String.mk (email.toList.takeWhile (fun c => c != '@'))

/-- The search key `expected_email.split('@')[0]` passed to the user lookup
(src/main.py line 473). -/
def lookup_key (name domain : String) : String :=
  email_local_part
    (generate_expected_email (parse_onboarding_name name).1
      (parse_onboarding_name name).2 domain)

/-- The association of lookup candidates to a record (src/main.py lines
475-486): `users[0]` when the lookup returns any candidates, no match (and
no exception) otherwise. -/
def select_user (users : List UserRec) : Option UserRec :=
  users.head?

/-- Rejoin split parts with the `' | '` separator (used only to express the
claim's reading of the parser). -/
def joinBar : List (List Char) → List Char
  | [] => []
  | [a] => a
  | a :: rest => a ++ ' ' :: '|' :: ' ' :: joinBar rest

/-- The name parser as the claim words it: first name = text before the
separator, last name = ALL text after it (empty when no separator occurs).
Defined from the claim sentence, for comparison with the source
`parse_onboarding_name`. -/
def parse_onboarding_name_claim (s : String) : String × String :=
  match splitBar s.toList with
  | [_] => (pyStrip s, "")
  | a :: rest => (pyStrip (String.mk a), pyStrip (String.mk (joinBar rest)))
  | [] => (pyStrip s, "")

/-- A record that lacks the `qr_code` key entirely. -/
def recNoQr : Rec :=
  ⟨some (some "Kassa 9"), none, some none, some none, some (some "Festival"),
    some (some "sales"), some (some "Cash")⟩

/-- A record that lacks the `event_name` key entirely. -/
def recNoEvent : Rec :=
  ⟨some (some "Kassa 1"), some (some "QR1"), some (some "Loc"),
    some (some "Sales"), none, some (some "sales"), some (some "Cash")⟩

/-- A record with all keys absent. -/
def recEmpty : Rec := ⟨none, none, none, none, none, none, none⟩

/-- A top-up record whose role tag uses the plain `TOPUP` spelling (no
underscore) and that has payment methods configured. -/
def recTopupNoUnderscore : Rec :=
  ⟨some (some "Topup kassa"), some (some "QR7"), some none, some none,
    some none, some (some "TOPUP"), some (some "Cash")⟩

/-- A top-up record whose role tag uses the underscore spelling. -/
def recTopupUnderscore : Rec :=
  ⟨some (some "Topup kassa 2"), some (some "QR8"), some none, some none,
    some none, some (some "top_up"), some (some "Cash")⟩

lemma detailSection_length (l : List Rec) :
    ∀ n, (detailSection n l).length = l.length + l.countP (fun r => has_topup_role r) := by
  induction l with
  | nil => intro n; simp [detailSection]
  | cons r rs ih =>
      intro n
      by_cases h : has_topup_role r = true
      · simp [detailSection, h, ih, List.countP_cons]
        omega
      · simp [detailSection, h, ih, List.countP_cons]
        omega

lemma needs_separate_iff (l : List Rec) :
    needs_separate_currencies_page l = true ↔ 15 < l.length := by
  unfold needs_separate_currencies_page
  by_cases h : l.isEmpty
  · simp [h]
    have : l.length = 0 := List.isEmpty_iff_length_eq_zero.mp h
    omega
  · simp [h]

lemma totalPages_formula (l : List Rec) :
    totalPages l =
      1 + (if 15 < l.length then 1 else 0) + l.length +
        l.countP (fun r => has_topup_role r) := by
  unfold totalPages calculate_total_pages
  by_cases h : l.isEmpty
  · have hlen : l.length = 0 := List.isEmpty_iff_length_eq_zero.mp h
    have hc : l.countP (fun r => has_topup_role r) = 0 := by
      have : l.countP (fun r => has_topup_role r) ≤ l.length :=
        List.countP_le_length _
      omega
    simp [h, hlen, hc]
  · have h15 : needs_separate_currencies_page l = true ↔ 15 < l.length :=
      needs_separate_iff l
    by_cases h2 : 15 < l.length
    · simp [h, h15.mpr h2, h2]
      omega
    · have : needs_separate_currencies_page l = false := by
        cases hb : needs_separate_currencies_page l
        · rfl
        · exact absurd (h15.mp hb) h2
      simp [h, this, h2]
      omega

lemma pagePlan_length (l : List Rec) : (pagePlan l).length = totalPages l := by
  rw [totalPages_formula]
  unfold pagePlan
  by_cases h2 : 15 < l.length
  · have : needs_separate_currencies_page l = true := (needs_separate_iff l).mpr h2
    simp [this, h2, detailSection_length]
    omega
  · have : needs_separate_currencies_page l = false := by
      cases hb : needs_separate_currencies_page l
      · rfl
      · exact absurd ((needs_separate_iff l).mp hb) h2
    simp [this, h2, detailSection_length]
    omega

/-- Claim C1: for a record list of length N with K top-up-tagged records,
the total page count shown in every page footer of the generated document is
1 + (1 if N > 15 else 0) + N + K; for N = 0 the total is exactly 1. -/
theorem C1_total_pages (l : List Rec) :
    (∀ pg ∈ applicationDocument l,
        pg.2 = 1 + (if 15 < l.length then 1 else 0) + l.length +
          l.countP (fun r => has_topup_role r)) ∧
    (applicationDocument l).length = totalPages l ∧
    (l.length = 0 → totalPages l = 1) := by
  refine ⟨?_, ?_, ?_⟩
  · intro pg hpg
    unfold applicationDocument at hpg
    rcases List.mem_map.mp hpg with ⟨k, _, rfl⟩
    exact totalPages_formula l
  · unfold applicationDocument
    rw [List.length_map]
    exact pagePlan_length l
  · intro h0
    rw [totalPages_formula l, h0]
    have hc : l.countP (fun r => has_topup_role r) = 0 := by
      have : l.countP (fun r => has_topup_role r) ≤ l.length :=
        List.countP_le_length _
      omega
    simp [hc]

/-- Witness for C1 at a concrete input: a single record with a top-up role
yields footer total 3 on every page. -/
theorem C1_total_pages_witness :
    ∀ pg ∈ applicationDocument
        [⟨some (some "Kassa 1"), some (some "QRX"), some none, some none,
          some (some "Festival"), some (some "topup_sales"), some (some "Cash")⟩],
      pg.2 = 3 := by
  intro pg hpg
  have h := (C1_total_pages
      [⟨some (some "Kassa 1"), some (some "QRX"), some none, some none,
        some (some "Festival"), some (some "topup_sales"), some (some "Cash")⟩]).1 pg hpg
  simpa using h

lemma toList_mk (l : List Char) : (String.mk l).toList = l := rfl

lemma has_topup_eq_variant (r : Rec) : has_topup_role r = roleTagHasVariant r := by
  unfold has_topup_role roleTagHasVariant pyGetD
  cases hro : r.rollen with
  | none => decide
  | some v =>
      cases v with
      | none => decide
      | some s =>
          show (if s.toList.isEmpty then false
              else
                strContains (lowerStr s) "topup" || strContains (lowerStr s) "top_up" ||
                  strContains (lowerStr s) "top-up") =
            (strContains (lowerStr s) "topup" || strContains (lowerStr s) "top_up" ||
              strContains (lowerStr s) "top-up")
          by_cases he : s.toList.isEmpty = true
          · have hnil : s.toList = [] := by
              cases hs : s.toList with
              | nil => rfl
              | cons c cs => rw [hs] at he; simp at he
            rw [if_pos he]
            unfold strContains lowerStr
            rw [toList_mk, hnil]
            decide
          · rw [if_neg he]

lemma currencies_not_mem_detailSection (l : List Rec) :
    ∀ n, PageKind.currencies ∉ detailSection n l := by
  induction l with
  | nil => intro n; simp [detailSection]
  | cons r rs ih =>
      intro n
      by_cases h : has_topup_role r = true <;> simp [detailSection, h, ih]

lemma manual_mem_detailSection (l : List Rec) :
    ∀ n i, (PageKind.manual i ∈ detailSection n l) ↔
      ∃ k r, l[k]? = some r ∧ i = n + k ∧ has_topup_role r = true := by
  induction l with
  | nil => intro n i; simp [detailSection]
  | cons r0 rs ih =>
      intro n i
      by_cases h0 : has_topup_role r0 = true
      · simp only [detailSection, h0, if_true, List.singleton_append, List.mem_cons]
        constructor
        · rintro (hc | hc | hc)
          · exact absurd hc (by simp)
          · have hin : i = n := by injection hc
            exact ⟨0, r0, by simp, by omega, h0⟩
          · rcases (ih (n + 1) i).mp hc with ⟨k, r, hk, hik, ht⟩
            exact ⟨k + 1, r, by simpa using hk, by omega, ht⟩
        · rintro ⟨k, r, hk, hik, ht⟩
          cases k with
          | zero =>
              right; left
              have : i = n := by omega
              rw [this]
          | succ k2 =>
              right; right
              exact (ih (n + 1) i).mpr ⟨k2, r, by simpa using hk, by omega, ht⟩
      · have h0f : has_topup_role r0 = false := by
          cases hb : has_topup_role r0
          · rfl
          · exact absurd hb h0
        simp only [detailSection, h0f, Bool.false_eq_true, if_false, List.nil_append,
          List.mem_cons]
        constructor
        · rintro (hc | hc)
          · exact absurd hc (by simp)
          · rcases (ih (n + 1) i).mp hc with ⟨k, r, hk, hik, ht⟩
            exact ⟨k + 1, r, by simpa using hk, by omega, ht⟩
        · rintro ⟨k, r, hk, hik, ht⟩
          cases k with
          | zero =>
              have hr : r0 = r := by simpa using hk
              rw [← hr, h0f] at ht
              exact absurd ht (by simp)
          | succ k2 =>
              right
              exact (ih (n + 1) i).mpr ⟨k2, r, by simpa using hk, by omega, ht⟩

lemma detailSection_adjacent (l : List Rec) :
    ∀ n k r, l[k]? = some r → has_topup_role r = true →
      ∃ m, (detailSection n l)[m]? = some (PageKind.detail (n + k)) ∧
        (detailSection n l)[m + 1]? = some (PageKind.manual (n + k)) := by
  induction l with
  | nil => intro n k r hk; simp at hk
  | cons r0 rs ih =>
      intro n k r hk htop
      cases k with
      | zero =>
          have hr : r0 = r := by simpa using hk
          refine ⟨0, ?_, ?_⟩
          · simp [detailSection]
          · rw [hr]
            simp [detailSection, htop]
      | succ k2 =>
          rcases ih (n + 1) k2 r (by simpa using hk) htop with ⟨m, h1, h2⟩
          have harith : n + 1 + k2 = n + (k2 + 1) := by omega
          rw [harith] at h1 h2
          by_cases h0 : has_topup_role r0 = true
          · refine ⟨m + 2, ?_, ?_⟩
            · simpa [detailSection, h0] using h1
            · simpa [detailSection, h0] using h2
          · have h0f : has_topup_role r0 = false := by
              cases hb : has_topup_role r0
              · rfl
              · exact absurd hb h0
            refine ⟨m + 1, ?_, ?_⟩
            · simpa [detailSection, h0f] using h1
            · simpa [detailSection, h0f] using h2

lemma pagePlan_eq_append (l : List Rec) :
    pagePlan l =
      (PageKind.overview ::
        (if needs_separate_currencies_page l then [PageKind.currencies] else [])) ++
        detailSection 0 l := by
  simp [pagePlan]

/-- Claim C2: a Manual page is emitted, immediately after the record's
Detail page, exactly when the record's role-tag string contains `topup`,
`top_up` or `top-up` (case-insensitively); a record without such a tag never
produces a Manual page. -/
theorem C2_manual_page_iff_topup (l : List Rec) (i : Nat) (r : Rec)
    (h : l[i]? = some r) :
    ((PageKind.manual i ∈ pagePlan l) ↔ roleTagHasVariant r = true) ∧
    (roleTagHasVariant r = true →
      ∃ m, (pagePlan l)[m]? = some (PageKind.detail i) ∧
        (pagePlan l)[m + 1]? = some (PageKind.manual i)) := by
  constructor
  · rw [pagePlan_eq_append]
    constructor
    · intro hmem
      rw [List.mem_append] at hmem
      rcases hmem with hmem | hmem
      · by_cases hn : needs_separate_currencies_page l = true <;> simp [hn] at hmem
      · rcases (manual_mem_detailSection l 0 i).mp hmem with ⟨k, r2, hk, hik, ht⟩
        have hki : k = i := by omega
        rw [hki, h] at hk
        have : r2 = r := by injection hk with h2; exact h2.symm
        rw [← this, ← has_topup_eq_variant]
        exact ht
    · intro hv
      rw [List.mem_append]
      right
      exact (manual_mem_detailSection l 0 i).mpr
        ⟨i, r, h, by omega, by rw [has_topup_eq_variant]; exact hv⟩
  · intro hv
    have ht : has_topup_role r = true := by rw [has_topup_eq_variant]; exact hv
    rcases detailSection_adjacent l 0 i r h ht with ⟨m, h1, h2⟩
    have hz : 0 + i = i := by omega
    rw [hz] at h1 h2
    rw [pagePlan_eq_append]
    set pre := PageKind.overview ::
      (if needs_separate_currencies_page l then [PageKind.currencies] else []) with hpre
    refine ⟨pre.length + m, ?_, ?_⟩
    · rw [List.getElem?_append_right (by omega)]
      simpa using h1
    · rw [List.getElem?_append_right (by omega)]
      have : pre.length + m + 1 - pre.length = m + 1 := by omega
      rw [this]
      exact h2

/-- Witness for C2: in a two-record list where only the second record is
tagged `TOP-UP`, the Manual page for record 1 exists right after its Detail
page, and record 0 has no Manual page. -/
theorem C2_manual_page_iff_topup_witness :
    (PageKind.manual 1 ∈ pagePlan
        [⟨some (some "Bar"), some (some "Q0"), some none, some none, some none,
          some (some "sales"), some (some "Cash")⟩,
         ⟨some (some "Kiosk"), some (some "Q1"), some none, some none, some none,
          some (some "TOP-UP"), some (some "Cash")⟩]) ∧
    (PageKind.manual 0 ∉ pagePlan
        [⟨some (some "Bar"), some (some "Q0"), some none, some none, some none,
          some (some "sales"), some (some "Cash")⟩,
         ⟨some (some "Kiosk"), some (some "Q1"), some none, some none, some none,
          some (some "TOP-UP"), some (some "Cash")⟩]) := by
  constructor
  · exact ((C2_manual_page_iff_topup _ 1 _ (by rfl)).1).mpr (by decide)
  · intro hmem
    have h := ((C2_manual_page_iff_topup _ 0
        (⟨some (some "Bar"), some (some "Q0"), some none, some none, some none,
          some (some "sales"), some (some "Cash")⟩ : Rec) (by rfl)).1).mp hmem
    exact absurd h (by decide)

lemma rowsLoop_fst_le (n : Nat) : ∀ y : ℚ, (rowsLoop y n).1 ≤ n := by
  induction n with
  | zero => intro y; simp [rowsLoop]
  | succ n ih =>
      intro y
      by_cases h80 : y < 80
      · simp [rowsLoop, h80]
      · simp only [rowsLoop, if_neg h80]
        have := ih (y - 18)
        omega

lemma rowsLoop_fst_le_of_lt (n : Nat) :
    ∀ (y : ℚ) (k : Nat), y < 80 + 18 * (k : ℚ) → (rowsLoop y n).1 ≤ k := by
  induction n with
  | zero => intro y k _; simp [rowsLoop]
  | succ n ih =>
      intro y k h
      by_cases h80 : y < 80
      · simp [rowsLoop, h80]
      · cases k with
        | zero =>
            push_cast at h
            exact absurd (by linarith : y < 80) h80
        | succ k2 =>
            simp only [rowsLoop, if_neg h80]
            have hk2 : y - 18 < 80 + 18 * (k2 : ℚ) := by push_cast at h ⊢; linarith
            have := ih (y - 18) k2 hk2
            omega

lemma rowsLoop_all (n : Nat) :
    ∀ y : ℚ, 80 + 18 * (n : ℚ) ≤ y + 18 → rowsLoop y n = (n, y - 18 * (n : ℚ)) := by
  induction n with
  | zero => intro y _; simp [rowsLoop]
  | succ n ih =>
      intro y h
      have hn : (0 : ℚ) ≤ (n : ℚ) := Nat.cast_nonneg n
      have h80 : ¬ y < 80 := by push_cast at h; intro hc; linarith
      simp only [rowsLoop, if_neg h80]
      have hih := ih (y - 18) (by push_cast at h ⊢; linarith)
      rw [hih]
      simp only [Prod.mk.injEq]
      constructor
      · trivial
      · push_cast
        ring

/-- Claim C3: a separate currencies page exists iff the record list has
more than 15 records; when it exists it is page 2, right after the overview
page (page 1); when it does not exist, the overview page embeds the
currency table instead. -/
theorem C3_currencies_page_placement (l : List Rec) (ctx : OverviewCtx)
    (cs : List Currency) :
    ((PageKind.currencies ∈ pagePlan l) ↔ 15 < l.length) ∧
    (pagePlan l)[0]? = some PageKind.overview ∧
    (15 < l.length → (pagePlan l)[1]? = some PageKind.currencies) ∧
    ((draw_configuration_overview ctx l cs).currenciesEmbedded.isSome ↔
      l.length ≤ 15) := by
  refine ⟨?_, ?_, ?_, ?_⟩
  · constructor
    · intro hmem
      unfold pagePlan at hmem
      rcases List.mem_cons.mp hmem with hc | hc
      · exact absurd hc (by simp)
      · rcases List.mem_append.mp hc with hc2 | hc2
        · by_cases hn : needs_separate_currencies_page l = true
          · exact (needs_separate_iff l).mp hn
          · simp [hn] at hc2
        · exact absurd hc2 (currencies_not_mem_detailSection l 0)
    · intro h15
      unfold pagePlan
      have hn : needs_separate_currencies_page l = true := (needs_separate_iff l).mpr h15
      simp [hn]
  · simp [pagePlan]
  · intro h15
    have hn : needs_separate_currencies_page l = true := (needs_separate_iff l).mpr h15
    simp [pagePlan, hn]
  · unfold draw_configuration_overview
    by_cases hn : needs_separate_currencies_page l = true
    · have := (needs_separate_iff l).mp hn
      simp [hn]
      omega
    · have hn2 : needs_separate_currencies_page l = false := by
        cases hb : needs_separate_currencies_page l
        · rfl
        · exact absurd hb hn
      have : ¬ 15 < l.length := fun hc => hn ((needs_separate_iff l).mpr hc)
      simp [hn2]
      omega

/-- Witness for C3 at concrete inputs: with 16 records the currencies page
is page 2; with 15 records the overview embeds the currency table. -/
theorem C3_currencies_page_placement_witness :
    (pagePlan recs16)[1]? = some PageKind.currencies ∧
    (draw_configuration_overview ctxPlain recs15 cs8).currenciesEmbedded.isSome := by
  constructor
  · exact (C3_currencies_page_placement recs16 ctxPlain cs8).2.2.1
      (by simp [recs16])
  · exact ((C3_currencies_page_placement recs15 ctxPlain cs8).2.2.2).mpr
      (by simp [recs15])

lemma recs26_length : recs26.length = 26 := by simp [recs26]

lemma recs15_length : recs15.length = 15 := by simp [recs15]

lemma recs15_not_separate : needs_separate_currencies_page recs15 = false := by
  have h : ¬ 15 < recs15.length := by rw [recs15_length]; omega
  cases hb : needs_separate_currencies_page recs15
  · rfl
  · exact absurd ((needs_separate_iff recs15).mp hb) h

/-- Claim C6 evaluated at the failing input: with 26 records and the plain
overview layout, the table loop draws all 26 rows (the `items_per_page = 25`
cap is never enforced by the loop), while the note still reports
`... en nog 1 configuraties`. -/
theorem C6_overview_cap_evaluation :
    (draw_configuration_overview ctxPlain recs26 cs8).rowsDrawn = 26 ∧
    (draw_configuration_overview ctxPlain recs26 cs8).moreNote = some 1 ∧
    25 < 26 := by
  refine ⟨?_, ?_, by omega⟩
  · show (rowsLoop (tableStartY ctxPlain recs26) recs26.length).1 = 26
    have hy : tableStartY ctxPlain recs26 = pageHeight - 230 := by
      have hne : recs26.isEmpty = false := by simp [recs26]
      simp only [tableStartY, hne, Bool.false_eq_true, if_false, ctxPlain]
      ring
    rw [recs26_length, hy,
      rowsLoop_all 26 (pageHeight - 230) (by norm_num [pageHeight])]
  · show (if !recs26.isEmpty && decide (25 < recs26.length) then
        some (recs26.length - 25) else none) = some 1
    have hne : recs26.isEmpty = false := by simp [recs26]
    rw [recs26_length]
    simp [hne]

lemma currencyRowsLoop_mem (cs : List Currency) :
    ∀ (y : ℚ) (x : Currency), x ∈ currencyRowsLoop y cs → x ∈ cs := by
  induction cs with
  | nil => intro y x hx; simp [currencyRowsLoop] at hx
  | cons c cs ih =>
      intro y x hx
      by_cases h : y < 120
      · simp [currencyRowsLoop, h] at hx
      · simp only [currencyRowsLoop, if_neg h, List.mem_cons] at hx
        rcases hx with hx | hx
        · exact hx ▸ List.mem_cons_self c cs
        · exact List.mem_cons_of_mem c (ih (y - 12) x hx)

lemma currencyRowsLoop_pairwise (P : Currency → Currency → Prop)
    (cs : List Currency) :
    ∀ y : ℚ, cs.Pairwise P → (currencyRowsLoop y cs).Pairwise P := by
  induction cs with
  | nil => intro y _; simp [currencyRowsLoop]
  | cons c cs ih =>
      intro y hp
      rcases List.pairwise_cons.mp hp with ⟨hhead, htail⟩
      by_cases h : y < 120
      · simp [currencyRowsLoop, h]
      · simp only [currencyRowsLoop, if_neg h]
        refine List.pairwise_cons.mpr ⟨?_, ih (y - 12) htail⟩
        intro x hx
        exact hhead x (currencyRowsLoop_mem cs (y - 12) x hx)

lemma currencyRowsLoop_length_le (cs : List Currency) :
    ∀ y : ℚ, (currencyRowsLoop y cs).length ≤ cs.length := by
  induction cs with
  | nil => intro y; simp [currencyRowsLoop]
  | cons c cs ih =>
      intro y
      by_cases h : y < 120
      · simp [currencyRowsLoop, h]
      · simp only [currencyRowsLoop, if_neg h, List.length_cons]
        have := ih (y - 12)
        omega

lemma currencyRowsLoop_all (cs : List Currency) :
    ∀ y : ℚ, 120 + 12 * (cs.length : ℚ) ≤ y + 12 → currencyRowsLoop y cs = cs := by
  induction cs with
  | nil => intro y _; simp [currencyRowsLoop]
  | cons c cs ih =>
      intro y h
      have hlen : (0 : ℚ) ≤ (cs.length : ℚ) := Nat.cast_nonneg _
      have h120 : ¬ y < 120 := by
        simp only [List.length_cons] at h
        push_cast at h
        intro hc; linarith
      simp only [currencyRowsLoop, if_neg h120]
      rw [ih (y - 12) (by simp only [List.length_cons] at h; push_cast at h ⊢; linarith)]

lemma mergeSort_bw_pairwise (cs : List Currency) :
    (cs.mergeSort bwLe).Pairwise (fun a b => bwKey a ≤ bwKey b) := by
  have h := @List.sorted_mergeSort Currency bwLe
    (by
      intro a b c hab hbc
      simp only [bwLe, decide_eq_true_eq] at hab hbc ⊢
      exact le_trans hab hbc)
    (by
      intro a b
      simp only [bwLe]
      by_cases hab : bwKey a ≤ bwKey b
      · simp [hab]
      · simp [le_of_not_le hab])
    cs
  exact h.imp (by intro a b hab; simpa [bwLe] using hab)

/-- Claim C7 counterexample: with 15 records, event times and refund info
shown, the currency table embedded on the overview page draws only 6 rows
for a list of 8 currencies, not 7. -/
theorem C7_currency_rows_counterexample :
    ((draw_configuration_overview ctxFull recs15 cs8).currenciesEmbedded.map
      List.length) = some 6 ∧ 7 < cs8.length := by
  have hms : cs8.mergeSort bwLe = cs8 := List.mergeSort_of_sorted (by decide)
  have hy : tableStartY ctxFull recs15 = pageHeight - 305 := by
    have hne : recs15.isEmpty = false := by simp [recs15]
    simp only [tableStartY, hne, Bool.false_eq_true, if_false, ctxFull, if_true]
    ring
  have hloop : rowsLoop (tableStartY ctxFull recs15) recs15.length =
      (15, pageHeight - 305 - 18 * ((15 : Nat) : ℚ)) := by
    rw [recs15_length, hy]
    exact rowsLoop_all 15 (pageHeight - 305) (by norm_num [pageHeight])
  have hemb : (draw_configuration_overview ctxFull recs15 cs8).currenciesEmbedded =
      some (currencyRowsLoop (pageHeight - 305 - 18 * ((15 : Nat) : ℚ) - 40 - 25 - 15)
        (cs8.take 7)) := by
    show (if needs_separate_currencies_page recs15 then none
        else some (draw_currencies_section
          ((rowsLoop (tableStartY ctxFull recs15) recs15.length).2 - 40) cs8)) = _
    rw [recs15_not_separate]
    simp only [Bool.false_eq_true, if_false, hloop]
    show some (draw_currencies_section (pageHeight - 305 - 18 * ((15 : Nat) : ℚ) - 40) cs8) = _
    unfold draw_currencies_section
    have he : cs8.isEmpty = false := rfl
    rw [hms, he]
    simp only [Bool.false_eq_true, if_false]
  rw [hemb]
  constructor
  · show some ((currencyRowsLoop (pageHeight - 305 - 18 * ((15 : Nat) : ℚ) - 40 - 25 - 15)
      (cs8.take 7)).length) = some 6
    have hval : (currencyRowsLoop (pageHeight - 305 - 18 * ((15 : Nat) : ℚ) - 40 - 25 - 15)
        (cs8.take 7)).length = 6 := by
      norm_num [currencyRowsLoop, cs8, pageHeight]
    rw [hval]
  · norm_num [cs8]

/-- Claim C7 amended: currency rows are always drawn in non-decreasing
burning-weight order and never more than 7; with at least 7 currencies,
exactly 7 rows are drawn whenever the section starts at y ≥ 232 — in
particular always on the dedicated currencies page — but fewer rows fit
when the section is embedded lower on the overview page. -/
theorem C7_currency_rows_amended (startY : ℚ) (cs : List Currency) :
    (draw_currencies_section startY cs).Pairwise (fun a b => bwKey a ≤ bwKey b) ∧
    (draw_currencies_section startY cs).length ≤ 7 ∧
    (232 ≤ startY → 7 ≤ cs.length →
      (draw_currencies_section startY cs).length = 7) ∧
    (7 ≤ cs.length → (draw_currencies_page cs).length = 7) := by
  have hpair : ∀ s : ℚ, (draw_currencies_section s cs).Pairwise
      (fun a b => bwKey a ≤ bwKey b) := by
    intro s
    unfold draw_currencies_section
    by_cases he : cs.isEmpty
    · simp [he]
    · simp only [he, Bool.false_eq_true, if_false]
      exact currencyRowsLoop_pairwise _ _ _
        ((mergeSort_bw_pairwise cs).sublist (List.take_sublist 7 _))
  have hlen7 : ∀ s : ℚ, (draw_currencies_section s cs).length ≤ 7 := by
    intro s
    unfold draw_currencies_section
    by_cases he : cs.isEmpty
    · simp [he]
    · simp only [he, Bool.false_eq_true, if_false]
      have h1 := currencyRowsLoop_length_le ((cs.mergeSort bwLe).take 7) (s - 25 - 15)
      have h2 : ((cs.mergeSort bwLe).take 7).length ≤ 7 := by
        rw [List.length_take]
        omega
      omega
  have hexact : ∀ s : ℚ, 232 ≤ s → 7 ≤ cs.length →
      (draw_currencies_section s cs).length = 7 := by
    intro s hs h7
    unfold draw_currencies_section
    have he : cs.isEmpty = false := by
      cases hb : cs with
      | nil => rw [hb] at h7; simp at h7
      | cons c cs2 => simp [hb]
    simp only [he, Bool.false_eq_true, if_false]
    have htk : ((cs.mergeSort bwLe).take 7).length = 7 := by
      rw [List.length_take, List.length_mergeSort]
      omega
    rw [currencyRowsLoop_all ((cs.mergeSort bwLe).take 7) (s - 25 - 15)
      (by rw [htk]; push_cast; linarith)]
    exact htk
  refine ⟨hpair startY, hlen7 startY, hexact startY, ?_⟩
  intro h7
  exact hexact (pageHeight - 150) (by norm_num [pageHeight]) h7

/-- Witness for the amended C7: with 8 currencies and a section starting at
y = 300 (and likewise on the dedicated currencies page), exactly 7 sorted
rows are drawn. -/
theorem C7_currency_rows_amended_witness :
    (draw_currencies_section 300 cs8).length = 7 ∧
    (draw_currencies_page cs8).length = 7 := by
  constructor
  · exact (C7_currency_rows_amended 300 cs8).2.2.1 (by norm_num) (by norm_num [cs8])
  · exact (C7_currency_rows_amended 300 cs8).2.2.2 (by norm_num [cs8])

lemma drawLoop_ok_iff (l : List Rec) :
    ∀ i, (∃ ps, drawLoop i l = Except.ok ps) ↔
      ∀ r ∈ l, draw_application_page r = Except.ok () := by
  induction l with
  | nil => intro i; simp [drawLoop]
  | cons r rs ih =>
      intro i
      cases hdr : draw_application_page r with
      | error e =>
          simp only [drawLoop, hdr]
          constructor
          · rintro ⟨ps, hps⟩
            exact absurd hps (by simp)
          · intro hall
            have := hall r (List.mem_cons_self r rs)
            rw [hdr] at this
            exact absurd this (by simp)
      | ok u =>
          cases u
          simp only [drawLoop, hdr]
          cases hrest : drawLoop (i + 1) rs with
          | error e =>
              constructor
              · rintro ⟨ps, hps⟩
                exact absurd hps (by simp)
              · intro hall
                have : ∃ ps, drawLoop (i + 1) rs = Except.ok ps :=
                  (ih (i + 1)).mpr (fun r2 hr2 => hall r2 (List.mem_cons_of_mem r hr2))
                rcases this with ⟨ps, hps⟩
                rw [hrest] at hps
                exact absurd hps (by simp)
          | ok rest =>
              constructor
              · intro _ r2 hr2
                rcases List.mem_cons.mp hr2 with hr2 | hr2
                · rw [hr2]; exact hdr
                · exact (ih (i + 1)).mp ⟨rest, hrest⟩ r2 hr2
              · intro _
                exact ⟨_, rfl⟩

lemma drawLoop_plan (l : List Rec) :
    ∀ i, (∀ r ∈ l, draw_application_page r = Except.ok ()) →
      drawLoop i l = Except.ok (detailSection i l) := by
  induction l with
  | nil => intro i _; simp [drawLoop, detailSection]
  | cons r rs ih =>
      intro i hall
      have hdr := hall r (List.mem_cons_self r rs)
      simp only [drawLoop, hdr]
      rw [ih (i + 1) (fun r2 hr2 => hall r2 (List.mem_cons_of_mem r hr2))]
      rfl

/-- Claim C4 counterexample: a record whose detail page raises (here a
missing `qr_code` key) aborts the whole generation — the failure is not
converted to an in-page notice and no subsequent page is produced. -/
theorem C4_page_failure_counterexample :
    generate_multi_page_application_template [recNoQr] =
      Except.error "KeyError: qr_code" := rfl

/-- Claim C4 amended: only the failures the code explicitly wraps are
page-local.  Generation succeeds (producing the planned page sequence)
exactly when every record's detail page draws without raising; any record
whose detail page raises aborts the whole document.  On the manual page the
image handling is page-local: a missing or failing image yields a visible
in-page notice, never an exception. -/
theorem C4_error_propagation_amended (l : List Rec) (r : Rec)
    (img : ManualImageState) :
    ((∀ rec ∈ l, draw_application_page rec = Except.ok ()) →
      generate_multi_page_application_template l = Except.ok (pagePlan l)) ∧
    (∀ e, draw_application_page r = Except.error e → r ∈ l →
      ∃ e2, generate_multi_page_application_template l = Except.error e2) ∧
    (r.onboarding_name ≠ none →
      ∃ res, draw_topup_manual_page r img = Except.ok res ∧
        (img = ManualImageState.missing → res = ManualPageResult.fallbackNotice) ∧
        (img = ManualImageState.raises → res = ManualPageResult.errorNotice)) := by
  refine ⟨?_, ?_, ?_⟩
  · intro hall
    unfold generate_multi_page_application_template
    rw [drawLoop_plan l 0 hall]
    rfl
  · intro e he hmem
    unfold generate_multi_page_application_template
    cases hdl : drawLoop 0 l with
    | error e2 => exact ⟨e2, rfl⟩
    | ok ps =>
        have := (drawLoop_ok_iff l 0).mp ⟨ps, hdl⟩ r hmem
        rw [he] at this
        exact absurd this (by simp)
  · intro hname
    unfold draw_topup_manual_page
    cases hn : r.onboarding_name with
    | none => exact absurd hn hname
    | some v =>
        cases img with
        | loads => exact ⟨ManualPageResult.imageDrawn, rfl, by simp, by simp⟩
        | missing => exact ⟨ManualPageResult.fallbackNotice, rfl, by simp, by simp⟩
        | raises => exact ⟨ManualPageResult.errorNotice, rfl, by simp, by simp⟩

/-- Witness for the amended C4: a well-formed record generates the full
planned document, and the manual page with a missing image yields the
fallback notice. -/
theorem C4_error_propagation_amended_witness :
    generate_multi_page_application_template [recPlain] =
      Except.ok (pagePlan [recPlain]) ∧
    ∃ res, draw_topup_manual_page recPlain ManualImageState.missing =
        Except.ok res ∧ res = ManualPageResult.fallbackNotice := by
  constructor
  · exact (C4_error_propagation_amended [recPlain] recPlain
      ManualImageState.missing).1
      (by
        intro rec hrec
        rw [List.mem_singleton] at hrec
        rw [hrec]
        rfl)
  · rcases (C4_error_propagation_amended [recPlain] recPlain
        ManualImageState.missing).2.2 (by decide) with ⟨res, hres, hmiss, _⟩
    exact ⟨res, hres, hmiss rfl⟩

/-- Claim C5 counterexample: a record whose role tag is the plain `TOPUP`
spelling is top-up-tagged in the claim's sense (and gets a manual page),
yet its payment-methods line IS rendered, because the suppression check at
src/qr_generator.py line 194 tests only the `top_up` spelling. -/
theorem C5_payment_suppression_counterexample :
    roleTagHasVariant recTopupNoUnderscore = true ∧
    has_topup_role recTopupNoUnderscore = true ∧
    payment_methods_rendered recTopupNoUnderscore = Except.ok true := by
  refine ⟨by decide, by decide, rfl⟩

/-- Claim C5 amended: the payment-methods line is rendered iff the
`betaalmethodes` field is truthy and the lowercased role string does not
contain the underscore spelling `top_up`; role tags matching only the
`topup` or `top-up` spellings do not suppress it. -/
theorem C5_payment_suppression_amended (r : Rec) (s : String)
    (h : pyGetD r.rollen (some "") = some s) :
    (payment_methods_rendered r = Except.ok true ↔
      (pyTruthy (pyGetD r.betaalmethodes none) = true ∧
        strContains (lowerStr s) "top_up" = false)) ∧
    (payment_methods_rendered r = Except.ok false ↔
      (pyTruthy (pyGetD r.betaalmethodes none) = false ∨
        strContains (lowerStr s) "top_up" = true)) := by
  unfold payment_methods_rendered
  rw [h]
  cases hA : pyTruthy (pyGetD r.betaalmethodes none) <;>
    cases hB : strContains (lowerStr s) "top_up" <;> simp [hA, hB]

/-- Witness for the amended C5: the underscore spelling does suppress the
payment-methods line. -/
theorem C5_payment_suppression_amended_witness :
    payment_methods_rendered recTopupUnderscore = Except.ok false := by
  exact ((C5_payment_suppression_amended recTopupUnderscore "top_up" rfl).2).mpr
    (Or.inr (by decide))

/-- Claim C8: the onboarding QR of a detail page encodes exactly the URL
`https://` + domain + `/?onboardingQrCode=` + code + `#/auth/signuphome`;
the guest page's second QR encodes the matched user's own QR token as a raw
value when a match with a truthy token exists, and a placeholder
otherwise. -/
theorem C8_qr_contents (domain c : String) (r : Rec) (user : Option UserRec)
    (hq : r.qr_code = some (some c)) :
    detail_page_onboarding_qr domain r =
      Except.ok (QrContent.url
        ("https://" ++ domain ++ "/?onboardingQrCode=" ++ c ++ "#/auth/signuphome")) ∧
    (∀ u s, user = some u → u.qr_code = some (some s) → s.toList.isEmpty = false →
      guest_page_user_qr user = QrContent.raw s) ∧
    (user = none → guest_page_user_qr user = QrContent.placeholder) ∧
    (∀ u, user = some u →
      (u.qr_code = none ∨ u.qr_code = some none ∨ u.qr_code = some (some "")) →
      guest_page_user_qr user = QrContent.placeholder) := by
  refine ⟨?_, ?_, ?_, ?_⟩
  · unfold detail_page_onboarding_qr
    rw [hq]
    rfl
  · intro u s hu hus hne
    rw [hu]
    simp only [guest_page_user_qr, pyGetD, hus, Option.getD_some, hne,
      Bool.false_eq_true, if_false]
  · intro hu
    rw [hu]
    rfl
  · intro u hu hcase
    rw [hu]
    rcases hcase with hc | hc | hc <;> simp [guest_page_user_qr, pyGetD, hc]

/-- Witness for C8: concrete URL construction and both user-QR outcomes. -/
theorem C8_qr_contents_witness :
    detail_page_onboarding_qr "app.example.com" recPlain =
      Except.ok (QrContent.url
        ("https://" ++ "app.example.com" ++ "/?onboardingQrCode=" ++ "QR0" ++
          "#/auth/signuphome")) ∧
    guest_page_user_qr (some ⟨some (some "jandoe@x.com"), some (some "RFID123")⟩) =
      QrContent.raw "RFID123" ∧
    guest_page_user_qr none = QrContent.placeholder := by
  refine ⟨?_, ?_, ?_⟩
  · exact (C8_qr_contents "app.example.com" "QR0" recPlain none rfl).1
  · exact (C8_qr_contents "app.example.com" "QR0" recPlain
      (some ⟨some (some "jandoe@x.com"), some (some "RFID123")⟩) rfl).2.1
      ⟨some (some "jandoe@x.com"), some (some "RFID123")⟩ "RFID123" rfl rfl rfl
  · exact (C8_qr_contents "app.example.com" "QR0" recPlain none rfl).2.2.1 rfl

/-- Claim C9 counterexample: a record missing the `event_name` key makes
the detail page raise `KeyError` instead of substituting a placeholder. -/
theorem C9_missing_field_counterexample :
    draw_application_page recNoEvent = Except.error "KeyError: event_name" := rfl

/-- Claim C9 amended: placeholder substitution happens only for the roles
line of the detail page and for every cell of the overview table; the
detail page reads `qr_code`, `onboarding_name`, `event_name`,
`location_name` and `sales_name` by direct indexing and raises `KeyError`
when one is missing (and `AttributeError` when `rollen` is present but
null). -/
theorem C9_missing_field_amended (r : Rec) :
    ((draw_application_page r).isOk = true ↔
      (r.qr_code ≠ none ∧ r.onboarding_name ≠ none ∧ r.event_name ≠ none ∧
        r.location_name ≠ none ∧ r.sales_name ≠ none ∧ r.rollen ≠ some none)) ∧
    (r.rollen = none → application_page_roles_text r = "Geen rollen gespecifieerd") ∧
    overview_row_app recEmpty =
      ⟨"Unknown", "Geen", "Geen", "Geen", false⟩ := by
  refine ⟨?_, ?_, rfl⟩
  · rcases r with ⟨n, q, lo, sa, ev, ro, be⟩
    rcases q with _ | q <;> rcases n with _ | n <;> rcases ev with _ | ev <;>
      rcases lo with _ | lo <;> rcases sa with _ | sa <;>
      rcases ro with _ | (_ | ro) <;>
      simp [draw_application_page, pyGetD, Except.isOk, Except.toBool]
  · intro h
    unfold application_page_roles_text pyGetD
    rw [h]
    rfl

/-- Witness for the amended C9: a fully-populated record draws fine; a
record with no `rollen` key gets the documented roles placeholder. -/
theorem C9_missing_field_amended_witness :
    (draw_application_page recPlain).isOk = true ∧
    application_page_roles_text recEmpty = "Geen rollen gespecifieerd" := by
  constructor
  · exact ((C9_missing_field_amended recPlain).1).mpr (by decide)
  · exact (C9_missing_field_amended recEmpty).2.1 rfl

lemma toList_append (a b : String) : (a ++ b).toList = a.toList ++ b.toList := by
  cases a
  cases b
  rfl

lemma takeWhile_until (p : Char → Bool) (c : Char) (hc : p c = false) :
    ∀ (l1 l2 : List Char), (∀ x ∈ l1, p x = true) →
      (l1 ++ c :: l2).takeWhile p = l1 := by
  intro l1
  induction l1 with
  | nil =>
      intro l2 _
      simp [List.takeWhile_cons, hc]
  | cons d l ih =>
      intro l2 h1
      have hd : p d = true := h1 d (List.mem_cons_self d l)
      simp only [List.cons_append, List.takeWhile_cons, hd, if_true]
      rw [ih l2 (fun x hx => h1 x (List.mem_cons_of_mem d hx))]

lemma toLower_ne_at (d : Char) (h : d.isAlphanum = true) : d.toLower ≠ '@' := by
  intro hEq
  unfold Char.toLower at hEq
  have hEq2 : (if d.toNat ≥ 65 ∧ d.toNat ≤ 90 then Char.ofNat (d.toNat + 32) else d) =
      ('@' : Char) := hEq
  clear hEq
  split at hEq2
  · rename_i hcond
    have hvalid : Nat.isValidChar (d.toNat + 32) := Or.inl (by omega)
    have hval : (Char.ofNat (d.toNat + 32)).toNat = d.toNat + 32 := by
      rw [Char.ofNat, dif_pos hvalid]
      rfl
    rw [hEq2] at hval
    have h64 : ('@').toNat = 64 := rfl
    rw [h64] at hval
    omega
  · rw [hEq2] at h
    exact absurd h (by decide)

lemma clean_chars_ne_at (fn : String) :
    ∀ c ∈ (clean_email_text fn).toList, (c != '@') = true := by
  intro c hc
  rw [clean_email_text, toList_mk] at hc
  rcases List.mem_map.mp hc with ⟨d, hd, rfl⟩
  have hdal : d.isAlphanum = true := (List.mem_filter.mp hd).2
  simp only [bne_iff_ne, ne_eq]
  exact toLower_ne_at d hdal

lemma email_local_part_eq (fn ln domain : String) :
    email_local_part (generate_expected_email fn ln domain) =
      clean_email_text fn ++ clean_email_text ln := by
  unfold email_local_part generate_expected_email
  rw [toList_append, toList_append, toList_append]
  have hat : ("@" : String).toList = ['@'] := rfl
  rw [hat, List.append_assoc, List.append_assoc, List.singleton_append]
  rw [← List.append_assoc]
  rw [takeWhile_until _ '@' rfl
    ((clean_email_text fn).toList ++ (clean_email_text ln).toList) domain.toList
    (by
      intro x hx
      rcases List.mem_append.mp hx with hx | hx
      · exact clean_chars_ne_at fn x hx
      · exact clean_chars_ne_at ln x hx)]
  show String.mk ((clean_email_text fn).toList ++ (clean_email_text ln).toList) = _
  cases hfn : clean_email_text fn
  cases hln : clean_email_text ln
  rfl

/-- Claim C10 counterexample: for a name with two separators the source
parser takes only the SECOND segment as the last name, not all the text
after the first separator as the claim says. -/
theorem C10_name_parsing_counterexample :
    parse_onboarding_name "A | B | C" = ("A", "B") ∧
    parse_onboarding_name_claim "A | B | C" = ("A", "B | C") ∧
    parse_onboarding_name "A | B | C" ≠ parse_onboarding_name_claim "A | B | C" := by
  refine ⟨by decide, by decide, by decide⟩

/-- Claim C10 amended: the matching key is derived deterministically — the
name is split on `' | '`, the first name is the first part and the last
name is the SECOND part (both stripped; empty last name when no separator
occurs); the expected email local part is exactly the concatenation of the
cleaned (alphanumerics-only, lowercased) first and last names; the first
lookup candidate is associated with the record and zero candidates yield no
match without raising. -/
theorem C10_user_matching_amended (s fn ln domain : String)
    (users : List UserRec) :
    (∀ a b rest, splitBar s.toList = a :: b :: rest →
      parse_onboarding_name s = (pyStrip (String.mk a), pyStrip (String.mk b))) ∧
    (∀ a, splitBar s.toList = [a] → parse_onboarding_name s = (pyStrip s, "")) ∧
    email_local_part (generate_expected_email fn ln domain) =
      clean_email_text fn ++ clean_email_text ln ∧
    select_user users = users.head? ∧
    (users = [] → select_user users = none) ∧
    (∀ u us, users = u :: us → select_user users = some u) := by
  refine ⟨?_, ?_, email_local_part_eq fn ln domain, rfl, ?_, ?_⟩
  · intro a b rest h
    unfold parse_onboarding_name
    rw [h]
  · intro a h
    unfold parse_onboarding_name
    rw [h]
  · intro h
    rw [h]
    rfl
  · intro u us h
    rw [h]
    rfl

/-- Witness for the amended C10 at concrete inputs. -/
theorem C10_user_matching_amended_witness :
    parse_onboarding_name "John | Doe" = ("John", "Doe") ∧
    email_local_part (generate_expected_email "Jo-hn" "Doe!" "example.com") =
      "johndoe" ∧
    select_user [⟨some (some "a@b.c"), some (some "T1")⟩, ⟨none, none⟩] =
      some ⟨some (some "a@b.c"), some (some "T1")⟩ := by
  refine ⟨?_, ?_, ?_⟩
  · have h := (C10_user_matching_amended "John | Doe" "x" "y" "z" []).1
      ['J', 'o', 'h', 'n'] ['D', 'o', 'e'] [] (by decide)
    rw [h]
    decide
  · have h := (C10_user_matching_amended "s" "Jo-hn" "Doe!" "example.com" []).2.2.1
    rw [h]
    decide
  · exact (C10_user_matching_amended "s" "x" "y" "z"
      [⟨some (some "a@b.c"), some (some "T1")⟩, ⟨none, none⟩]).2.2.2.2.2
      ⟨some (some "a@b.c"), some (some "T1")⟩ [⟨none, none⟩] rfl

end OnboardingQR
